import Mathlib

/-!
# Verification of the mortar-backend ProxyRule validation / conflict engine

Shallow embedding of the Go sources of `Bausteln/mortar-backend`:

* `internal/validation/proxyrule.go` — syntax validators (`validateDomain`,
  `validateDestination`, `validatePort`), structural validators
  (`validateMetadata`, `validateSpec`, `ValidateProxyRuleCreate`,
  `ValidateProxyRuleUpdate`);
* `internal/validation/request.go` — `MaxRequestBodySize`, `ValidateRequestBody`;
* `internal/handlers/proxyrules.go` — `CreateProxyRule`, `UpdateProxyRule`,
  `checkDuplicateDomain`;
* `internal/testutil/testutil.go` — the in-memory namespaced object store
  (`FakeDynamicClient`), which deep-copies on read/write, so the store is
  modelled as an immutable association list from names to records.

Semi-structured records (`unstructured.Unstructured`, i.e. JSON-like
`map[string]interface{}` values) are modelled by `JValue`/`JObj`.  Go `int64`
values are modelled by `Int`, Go `float64` wire numbers by `ℚ` (every float64
is an exact rational; the conversion `int64(f)` truncates toward zero, which is
`Int.tdiv` on the rational's numerator/denominator).  Go string functions
(`strings.ToLower`, `strings.ToUpper`, byte `len`) are modelled on the
character list of the string; the case maps are the ASCII maps, which agree
with Go's on ASCII strings (the universally quantified case-folding theorems
carry an explicit ASCII hypothesis).  Go map iteration order is modelled by
list order; none of the proved statements depend on enumeration order.
-/

namespace Mortar

/-- A JSON-like dynamic value (`interface{}` after decoding):
strings, Go `int64` integers, Go `float64` numbers (as exact rationals),
booleans, null, arrays, and string-keyed objects. -/
inductive JValue where
  | str (s : String)
  | intV (n : Int)
  | numV (q : ℚ)
  | boolV (b : Bool)
  | nullV
  | arr (elems : List JValue)
  | obj (fields : List (String × JValue))

/-- A JSON object / `map[string]interface{}`: an association list of fields. -/
abbrev JObj := List (String × JValue)

/-- Field lookup in an object (Go map indexing `m[k]`). -/
def jLookup (o : JObj) (k : String) : Option JValue :=
  match o with
  | [] => none
  | (k', v) :: rest => if k' = k then some v else jLookup rest k

/-- Set a field of an object (Go map assignment `m[k] = v`): replace in place
if the key exists, otherwise add the field. -/
def jSet (o : JObj) (k : String) (v : JValue) : JObj :=
  match o with
  | [] => [(k, v)]
  | (k', v') :: rest => if k' = k then (k, v) :: rest else (k', v') :: jSet rest k v

/-- Result of a `unstructured.Nested*` accessor: the Go triple
`(value, found, err)` collapses to three cases — field absent
(`found=false, err=nil`), present with the wrong type (`err != nil`),
or present with the right type. -/
inductive NRes (α : Type) where
  | missing
  | typeErr
  | ok (a : α)

/-- `unstructured.NestedString(obj, k)`. -/
def nestedString (o : JObj) (k : String) : NRes String :=
  match jLookup o k with
  | none => .missing
  | some (.str s) => .ok s
  | some _ => .typeErr

/-- `unstructured.NestedMap(obj, k)` (the deep copy is identity in a pure model). -/
def nestedMapN (o : JObj) (k : String) : NRes JObj :=
  match jLookup o k with
  | none => .missing
  | some (.obj m) => .ok m
  | some _ => .typeErr

/-- Convert a list of JSON values to strings, failing if any is not a string
(the element loop of `unstructured.NestedStringSlice`). -/
def stringElems (l : List JValue) : Option (List String) :=
  match l with
  | [] => some []
  | .str s :: rest => (stringElems rest).map (s :: ·)
  | _ :: _ => none

/-- `unstructured.NestedStringSlice(obj, k)`: the value must be a JSON array
whose every element is a string. -/
def nestedStringSliceN (o : JObj) (k : String) : NRes (List String) :=
  match jLookup o k with
  | none => .missing
  | some (.arr l) =>
    match stringElems l with
    | some ss => .ok ss
    | none => .typeErr
  | some _ => .typeErr

/-- `unstructured.NestedString(obj, k1, k2)`: a two-level nested lookup.
A missing intermediate is `found=false, err=nil`; a non-map intermediate is an
error. -/
def nestedString2 (o : JObj) (k1 k2 : String) : NRes String :=
  match jLookup o k1 with
  | none => .missing
  | some (.obj m) => nestedString m k2
  | some _ => .typeErr

/-- `unstructured.SetNestedField(obj, v, k1, k2)` as used by the metadata
setters: creates the intermediate map if absent; if the intermediate exists
but is not a map the (ignored) error leaves the object unchanged. -/
def setNested2 (o : JObj) (k1 k2 : String) (v : JValue) : JObj :=
  match jLookup o k1 with
  | none => jSet o k1 (.obj [(k2, v)])
  | some (.obj m) => jSet o k1 (.obj (jSet m k2 v))
  | some _ => o

/-- `Unstructured.GetName()`: `metadata.name` or `""`. -/
def getName (o : JObj) : String :=
  match nestedString2 o "metadata" "name" with
  | .ok s => s
  | _ => ""

/-- `Unstructured.GetNamespace()`: `metadata.namespace` or `""`. -/
def getNamespaceF (o : JObj) : String :=
  match nestedString2 o "metadata" "namespace" with
  | .ok s => s
  | _ => ""

/-- `Unstructured.GetAPIVersion()`: top-level `apiVersion` or `""`. -/
def getAPIVersion (o : JObj) : String :=
  match nestedString o "apiVersion" with
  | .ok s => s
  | _ => ""

/-- `Unstructured.GetKind()`: top-level `kind` or `""`. -/
def getKind (o : JObj) : String :=
  match nestedString o "kind" with
  | .ok s => s
  | _ => ""

/-! ## Character classes and string helpers (Go `strings`/`regexp` on bytes) -/

/-- `[a-z0-9]` — a lowercase alphanumeric character. -/
def isLowerAlnum (c : Char) : Bool :=
  (97 ≤ c.toNat && c.toNat ≤ 122) || (48 ≤ c.toNat && c.toNat ≤ 57)

/-- `[-a-z0-9]` — a character allowed inside a DNS / resource-name label. -/
def isLabelChar (c : Char) : Bool :=
  isLowerAlnum c || c = '-'

/-- `\d` — an ASCII digit. -/
def isDigitChar (c : Char) : Bool :=
  48 ≤ c.toNat && c.toNat ≤ 57

/-- ASCII lowercase map (models `strings.ToLower`, with which it agrees on
ASCII strings). -/
def goLowerChar (c : Char) : Char :=
  if 65 ≤ c.toNat && c.toNat ≤ 90 then Char.ofNat (c.toNat + 32) else c

/-- ASCII uppercase map (models `strings.ToUpper`, with which it agrees on
ASCII strings). -/
def goUpperChar (c : Char) : Char :=
  if 97 ≤ c.toNat && c.toNat ≤ 122 then Char.ofNat (c.toNat - 32) else c

/-- `strings.ToLower` on the character list of a string. -/
def goToLower (s : String) : String := ⟨s.data.map goLowerChar⟩

/-- `strings.ToUpper` on the character list of a string. -/
def goToUpper (s : String) : String := ⟨s.data.map goUpperChar⟩

/-- UTF-8 byte size of a character list (Go `len(s)` counts bytes). -/
def byteLen : List Char → Nat
  | [] => 0
  | c :: cs => c.utf8Size + byteLen cs

/-- Go `len(s)` — the UTF-8 byte length of a string. -/
def goLen (s : String) : Nat := byteLen s.data

/-- Split a character list at a separator; always returns at least one
(possibly empty) group, like Go's `strings.Split`. -/
def splitOn (sep : Char) : List Char → List (List Char)
  | [] => [[]]
  | c :: cs =>
    if c = sep then [] :: splitOn sep cs
    else
      match splitOn sep cs with
      | g :: gs => (c :: g) :: gs
      | [] => [[c]]

/-- Last element of a nonempty list given as head plus tail. -/
def lastChar (c : Char) : List Char → Char
  | [] => c
  | d :: ds => lastChar d ds

/-- One label of the RFC-1123 grammar `[a-z0-9]([-a-z0-9]*[a-z0-9])?`:
nonempty, every character in `[-a-z0-9]`, first and last alphanumeric. -/
def labelValid : List Char → Bool
  | [] => false
  | c :: cs => isLowerAlnum c && (c :: cs).all isLabelChar && isLowerAlnum (lastChar c cs)

/-- `dnsNameRegex = ^[a-z0-9]([-a-z0-9]*[a-z0-9])?(\.[a-z0-9]([-a-z0-9]*[a-z0-9])?)*$`:
one or more valid labels separated by single dots. -/
def dnsNameMatch (s : String) : Bool :=
  (splitOn '.' s.data).all labelValid

/-- `k8sNameRegex = ^[a-z0-9]([-a-z0-9]*[a-z0-9])?$`: a single valid label. -/
def k8sNameMatch (s : String) : Bool :=
  labelValid s.data

/-- `ipv4Pattern = ^\d+\.\d+\.\d+\.\d+$`: four dot-separated nonempty
all-digit groups. -/
def ipv4ShapeL (l : List Char) : Bool :=
  let ps := splitOn '.' l
  ps.length = 4 && ps.all (fun p => !p.isEmpty && p.all isDigitChar)

/-- String version of `ipv4Pattern` matching. -/
def ipv4Shape (s : String) : Bool := ipv4ShapeL s.data

/-- `strings.HasPrefix(s, ".")`. -/
def startsWithDot (s : String) : Bool := s.data.head? = some '.'

/-- `strings.HasSuffix(s, ".")`. -/
def endsWithDot (s : String) : Bool := s.data.getLast? = some '.'

/-- `strings.Contains(s, "..")`: two consecutive dots somewhere. -/
def hasConsecDotsL : List Char → Bool
  | c1 :: c2 :: rest => (c1 = '.' && c2 = '.') || hasConsecDotsL (c2 :: rest)
  | _ => false

/-- String version of the consecutive-dot check. -/
def hasConsecDots (s : String) : Bool := hasConsecDotsL s.data

/-- Numeric value of a decimal digit string. -/
def digitsToNat (l : List Char) : Nat :=
  l.foldl (fun n c => n * 10 + (c.toNat - 48)) 0

/-! ## `net.ParseIP` (Go 1.25, backed by `netip.ParseAddr`)

`ParseIP` scans for the first of `'.'`, `':'`, `'%'`: a dot dispatches to the
dotted-decimal IPv4 parser, a colon to the IPv6 parser, a percent (zone) or no
special character at all fails.  `ParseIP` additionally rejects any address
carrying a zone, so a `'%'` anywhere makes the result nil. -/

/-- One dotted-decimal IPv4 field per `netip.parseIPv4Fields`: nonempty, all
digits, value at most 255, and (since Go 1.17) no leading zero. -/
def ipv4FieldValid (p : List Char) : Bool :=
  !p.isEmpty && p.all isDigitChar && digitsToNat p ≤ 255 &&
    !(p.length > 1 && p.head? = some '0')

/-- `netip.parseIPv4`: exactly four dot-separated valid fields and nothing
else. -/
def parseIPv4Valid (l : List Char) : Bool :=
  let ps := splitOn '.' l
  ps.length = 4 && ps.all ipv4FieldValid

/-- A hexadecimal digit. -/
def isHexChar (c : Char) : Bool :=
  isDigitChar c || (97 ≤ c.toNat && c.toNat ≤ 102) || (65 ≤ c.toNat && c.toNat ≤ 70)

/-- Value of one hexadecimal digit. -/
def hexVal (c : Char) : Nat :=
  if isDigitChar c then c.toNat - 48
  else if 97 ≤ c.toNat && c.toNat ≤ 102 then c.toNat - 87
  else c.toNat - 55

/-- Scan a maximal run of hexadecimal digits, accumulating the value exactly
as `netip.parseIPv6` does (the accumulator is rejected by the caller when it
exceeds `0xFFFF`; leading zeros are allowed and do not bound the digit
count). Returns the digits read, their value, and the rest. -/
def takeHexRun : List Char → Nat × Nat × List Char
  | [] => (0, 0, [])
  | c :: cs =>
    if isHexChar c then
      let (n, v, rest) := takeHexRun cs
      (n + 1, v + hexVal c * 16 ^ n, rest)
    else (0, 0, c :: cs)

/-- The loop body of `netip.parseIPv6` after the optional leading `::` has
been consumed.  `i` is the number of address bytes already filled (two per
hex field, four for a trailing dotted quad), `ellipsis` records whether a
`::` has been seen.  The fuel decreases on every step; each step consumes at
least one character, so `fuel = length + 1` always suffices. -/
def parseIPv6Loop (fuel : Nat) (s : List Char) (i : Nat) (ellipsis : Bool) : Bool :=
  match fuel with
  | 0 => false
  | fuel + 1 =>
    if i ≥ 16 then s.isEmpty && ellipsis = false
    else
      let (n, v, rest) := takeHexRun s
      if n = 0 then false
      else if v > 65535 then false
      else
        match rest with
        | '.' :: _ =>
          -- trailing dotted quad: must re-parse the whole remainder as IPv4
          if !ellipsis && i ≠ 12 then false
          else if i + 4 > 16 then false
          else if !parseIPv4Valid s then false
          else
            -- loop exits with s = "", i+4 bytes; final checks inline
            (if i + 4 < 16 then ellipsis else true) &&
              (if i + 4 = 16 then !ellipsis else true)
        | ':' :: ':' :: rest2 =>
          if ellipsis then false
          else if rest2.isEmpty then
            -- ended on "::": final checks with ellipsis set
            i + 2 < 16
          else parseIPv6Loop fuel rest2 (i + 2) true
        | ':' :: rest2 =>
          if rest2.isEmpty then false
          else parseIPv6Loop fuel rest2 (i + 2) ellipsis
        | [] =>
          -- field ended the string: final checks
          (if i + 2 < 16 then ellipsis else true) &&
            (if i + 2 = 16 then !ellipsis else true)
        | _ => false

/-- `netip.parseIPv6` without zones (`ParseIP` rejects zoned addresses, so a
`'%'` anywhere is handled by the caller). -/
def parseIPv6Valid (l : List Char) : Bool :=
  match l with
  | ':' :: ':' :: rest =>
    if rest.isEmpty then true
    else parseIPv6Loop (rest.length + 1) rest 0 true
  | _ => parseIPv6Loop (l.length + 1) l 0 false

/-- The dispatch character of `netip.ParseAddr`: the first `'.'`, `':'` or
`'%'` in the string. -/
def firstSpecial (l : List Char) : Option Char :=
  l.find? (fun c => c = '.' || c = ':' || c = '%')

/-- `net.ParseIP(s) != nil`.  The dispatch is on the first special character:
a `'.'` runs the IPv4 parser, a `':'` the IPv6 parser, a `'%'` or no special
character fails.  Zones are rejected by `ParseIP` even when `parseIPv6`
accepts them, which the zone-free `parseIPv6Valid` reproduces. -/
def goParseIPValid (s : String) : Bool :=
  match firstSpecial s.data with
  | some '.' => parseIPv4Valid s.data
  | some ':' => parseIPv6Valid s.data
  | _ => false

/-! ## Syntax validators (`internal/validation/proxyrule.go`) -/

/-- A field-scoped validation error (`ValidationError` in Go). -/
structure ValidationError where
  field : String
  message : String
deriving DecidableEq, Repr

/-- `maxNameLength = 253`. -/
def maxNameLength : Nat := 253

/-- `maxDomainLength = 253`. -/
def maxDomainLength : Nat := 253

/-- `minPort = 1`. -/
def minPort : Int := 1

/-- `maxPort = 65535`. -/
def maxPort : Int := 65535

/-- `validateDomain`: length bound, DNS grammar on the lowercased string,
leading/trailing dot, consecutive dots — all checks independent and appended
in order. -/
def validateDomain (domain : String) : List ValidationError :=
  (if goLen domain > maxDomainLength then
    [⟨"spec.domain", "domain must not exceed 253 characters"⟩] else []) ++
  (if !dnsNameMatch (goToLower domain) then
    [⟨"spec.domain",
      "domain must be a valid DNS name (lowercase alphanumeric characters, '-', and '.' only)"⟩]
   else []) ++
  (if startsWithDot domain || endsWithDot domain then
    [⟨"spec.domain", "domain must not start or end with a dot"⟩] else []) ++
  (if hasConsecDots domain then
    [⟨"spec.domain", "domain must not contain consecutive dots"⟩] else [])

/-- `validateDestination`: an IPv4-looking value must parse as IPv4 (and
nothing further is checked); otherwise a parseable IP of any family is
accepted; otherwise DNS-name checks apply. -/
def validateDestination (destination : String) : List ValidationError :=
  if ipv4Shape destination then
    if !goParseIPValid destination then
      [⟨"spec.destination",
        "destination appears to be an IPv4 address but is invalid (octets must be 0-255)"⟩]
    else []
  else if goParseIPValid destination then []
  else
    (if !dnsNameMatch (goToLower destination) then
      [⟨"spec.destination", "destination must be a valid IP address or DNS name"⟩]
     else []) ++
    (if startsWithDot destination || endsWithDot destination then
      [⟨"spec.destination", "destination must not start or end with a dot"⟩] else []) ++
    (if hasConsecDots destination then
      [⟨"spec.destination", "destination must not contain consecutive dots"⟩] else [])

/-- `validatePort`: the port must lie in `[minPort, maxPort]`. -/
def validatePort (port : Int) : List ValidationError :=
  if port < minPort || port > maxPort then
    [⟨"spec.port", "port must be between 1 and 65535"⟩]
  else []

/-! ## Structural validators -/

/-- `validateMetadata`: `metadata.name` is required; a nonempty name is
checked for length and against the resource-name grammar, both errors
reported independently. -/
def validateMetadata (o : JObj) : List ValidationError :=
  if getName o = "" then
    [⟨"metadata.name", "name is required"⟩]
  else
    (if goLen (getName o) > maxNameLength then
      [⟨"metadata.name", "name must not exceed 253 characters"⟩] else []) ++
    (if !k8sNameMatch (getName o) then
      [⟨"metadata.name",
        "name must consist of lower case alphanumeric characters or '-', and must start and end with an alphanumeric character"⟩]
     else [])

/-- The `spec.domain` checks of `validateSpec`: type error, required and
nonempty, then `validateDomain`. -/
def domainSection (spec : JObj) : List ValidationError :=
  match nestedString spec "domain" with
  | .typeErr => [⟨"spec.domain", "invalid domain type"⟩]
  | .missing => [⟨"spec.domain", "domain is required"⟩]
  | .ok d =>
    if d = "" then [⟨"spec.domain", "domain is required"⟩]
    else validateDomain d

/-- Go's `int64(f)` conversion of a `float64`: truncation toward zero. -/
def goFloatToInt64 (q : ℚ) : Int := q.num.tdiv q.den

/-- Is the `destination` field, as read by `NestedString`, absent or empty
(the Go condition `!destFound || destination == ""`; a type error makes
`found` false)? -/
def destEmpty (r : NRes String) : Bool :=
  match r with
  | .ok s => s = ""
  | _ => true

/-- Is the `destinations` field, as read by `NestedStringSlice`, absent or
empty (the Go condition `!destsFound || len(destinations) == 0`)? -/
def destsEmpty (r : NRes (List String)) : Bool :=
  match r with
  | .ok l => l.isEmpty
  | _ => true

/-- Errors for one entry of `spec.destinations`: an empty entry is its own
error; otherwise `validateDestination` runs and its errors are re-scoped to
the indexed field. -/
def destEntryErrors (i : Nat) (dest : String) : List ValidationError :=
  if dest = "" then
    [⟨"spec.destinations[" ++ toString i ++ "]", "destination cannot be empty"⟩]
  else
    (validateDestination dest).map
      (fun e => ⟨"spec.destinations[" ++ toString i ++ "]", e.message⟩)

/-- Indexed validation of the `destinations` array. -/
def destsEntriesErrors (i : Nat) (dests : List String) : List ValidationError :=
  match dests with
  | [] => []
  | d :: rest => destEntryErrors i d ++ destsEntriesErrors (i + 1) rest

/-- The `spec.destination`/`spec.destinations` checks of `validateSpec`:
the at-least-one requirement, then the single destination (type error or
content), then the array (type error or per-entry content), in source
order. -/
def destSection (spec : JObj) : List ValidationError :=
  let destRes := nestedString spec "destination"
  let destsRes := nestedStringSliceN spec "destinations"
  (if destEmpty destRes && destsEmpty destsRes then
    [⟨"spec.destination/destinations", "either destination or destinations is required"⟩]
   else []) ++
  (match destRes with
   | .typeErr => [⟨"spec.destination", "invalid destination type"⟩]
   | .ok s => if s = "" then [] else validateDestination s
   | .missing => []) ++
  (match destsRes with
   | .typeErr => [⟨"spec.destinations", "invalid destinations type"⟩]
   | .ok l => if l.isEmpty then [] else destsEntriesErrors 0 l
   | .missing => [])

/-- The `spec.port` checks of `validateSpec`: an `int64` is validated
directly; a `float64` is converted with `int64(f)` (truncation) and validated
only when the truncation is nonzero; any other present type is a type
error (and `validatePort` is skipped, since the scratch value is zero). -/
def portSection (spec : JObj) : List ValidationError :=
  match jLookup spec "port" with
  | none => []
  | some (.intV n) => validatePort n
  | some (.numV q) =>
    if goFloatToInt64 q ≠ 0 then validatePort (goFloatToInt64 q) else []
  | some _ => [⟨"spec.port", "port must be an integer"⟩]

/-- The `spec.tls` check of `validateSpec`: if present, must be a boolean. -/
def tlsSection (spec : JObj) : List ValidationError :=
  match jLookup spec "tls" with
  | none => []
  | some (.boolV _) => []
  | some _ => [⟨"spec.tls", "tls must be a boolean"⟩]

/-- Per-key errors for a present `spec.annotations` object: every non-string
value reports its own error. -/
def annEntriesErrors (m : JObj) : List ValidationError :=
  match m with
  | [] => []
  | (_, .str _) :: rest => annEntriesErrors rest
  | (k, _) :: rest =>
    ⟨"spec.annotations." ++ k, "annotation value must be a string"⟩ :: annEntriesErrors rest

/-- The `spec.annotations` checks of `validateSpec`. -/
def annSection (spec : JObj) : List ValidationError :=
  match jLookup spec "annotations" with
  | none => []
  | some (.obj m) => annEntriesErrors m
  | some _ => [⟨"spec.annotations", "annotations must be a map of strings"⟩]

/-- `validateSpec`: a malformed or missing `spec` short-circuits with a
single error; otherwise the domain, destination, port, tls and annotations
checks run in order, accumulating all errors. -/
def validateSpec (o : JObj) : List ValidationError :=
  match nestedMapN o "spec" with
  | .typeErr => [⟨"spec", "invalid spec structure"⟩]
  | .missing => [⟨"spec", "spec is required"⟩]
  | .ok spec =>
    domainSection spec ++ destSection spec ++ portSection spec ++
      tlsSection spec ++ annSection spec

/-- `ValidateProxyRuleCreate`: metadata then spec. -/
def validateProxyRuleCreate (o : JObj) : List ValidationError :=
  validateMetadata o ++ validateSpec o

/-- `ValidateProxyRuleUpdate`: spec only (the name is immutable). -/
def validateProxyRuleUpdate (o : JObj) : List ValidationError :=
  validateSpec o

/-! ## Request-body validation (`internal/validation/request.go`) -/

/-- `MaxRequestBodySize = 1 * 1024 * 1024` bytes. -/
def MaxRequestBodySize : Nat := 1 * 1024 * 1024

/-- `ValidateRequestBody`: an empty body and a body over the size limit are
rejected with a field error on `body`. -/
def validateRequestBody (body : List Nat) : Option ValidationError :=
  if body.length = 0 then
    some ⟨"body", "request body is required"⟩
  else if body.length > MaxRequestBodySize then
    some ⟨"body", "request body size exceeds maximum of 1048576 bytes"⟩
  else none

/-! ## The namespaced object store (`internal/testutil/testutil.go`)

The fake client keeps `namespace → name → record`; the handlers use the single
fixed namespace `proxy-rules`, so the store is the name-keyed map of that
namespace, modelled as an association list.  `Get` and `List` return deep
copies and `Create`/`Update` store deep copies, so records are plain values
and no caller can mutate shared state — which is what makes this pure model
faithful.  Go map iteration order is modelled by list order. -/

/-- The store: name-to-record association list for the fixed namespace. -/
abbrev Store := List (String × JObj)

/-- `Get(ctx, name)`: the stored record (a deep copy), or NotFound. -/
def storeGet (st : Store) (name : String) : Option JObj :=
  match st with
  | [] => none
  | (n, r) :: rest => if n = name then some r else storeGet rest name

/-- `Create(ctx, obj)`: AlreadyExists if the name is taken, otherwise the
record is added under `obj.GetName()`. -/
def storeCreate (st : Store) (o : JObj) : Option Store :=
  if (storeGet st (getName o)).isSome then none
  else some (st ++ [(getName o, o)])

/-- `Update(ctx, obj)`: NotFound unless the name exists, otherwise the record
under `obj.GetName()` is replaced. -/
def storeUpdate (st : Store) (o : JObj) : Option Store :=
  if (storeGet st (getName o)).isSome then
    some (st.map (fun p => if p.1 = getName o then (getName o, o) else p))
  else none

/-- `List(ctx)`: all live records of the namespace (never fails). -/
def storeList (st : Store) : List JObj := st.map (·.2)

/-! ## The handlers (`internal/handlers/proxyrules.go`) -/

/-- The candidate's domain as the Conflict Checker reads it: `spec.domain`
via `NestedString`; absent, mistyped or empty means no conflict is
possible. -/
def candDomain (o : JObj) : Option String :=
  match nestedString2 o "spec" "domain" with
  | .ok d => if d = "" then none else some d
  | _ => none

/-- One step of `checkDuplicateDomain`'s scan over the listed records: skip
the record named `excludeName` (only when `excludeName` is nonempty), skip
records whose `spec.domain` is absent or mistyped, and conflict on the first
record whose stored domain is byte-for-byte equal to the candidate's. -/
def scanConflict (items : List JObj) (domain excl : String) : Option (String × String) :=
  match items with
  | [] => none
  | item :: rest =>
    if excl ≠ "" && getName item = excl then scanConflict rest domain excl
    else
      match nestedString2 item "spec" "domain" with
      | .ok existing =>
        if existing = domain then some (domain, getName item)
        else scanConflict rest domain excl
      | _ => scanConflict rest domain excl

/-- `checkDuplicateDomain(obj, excludeName)`: `none` means no conflict;
`some (domain, owner)` is the conflict error naming the rejected domain and
the rule that owns it.  (With the in-repo fake store, `List` never fails, so
the store-error path of the Go function is dead.) -/
def checkDuplicateDomain (st : Store) (o : JObj) (excl : String) : Option (String × String) :=
  match candDomain o with
  | none => none
  | some d => scanConflict (storeList st) d excl

/-- The defaulting step of `CreateProxyRule`: apiVersion, kind and namespace
are set when absent (`GetAPIVersion`/`GetKind`/`GetNamespace` return `""` for
absent or mistyped fields). -/
def normalizeCreate (o : JObj) : JObj :=
  let o1 := if getAPIVersion o = "" then jSet o "apiVersion" (.str "bausteln.io/v1") else o
  let o2 := if getKind o1 = "" then jSet o1 "kind" (.str "Proxyrule") else o1
  if getNamespaceF o2 = "" then setNested2 o2 "metadata" "namespace" (.str "proxy-rules") else o2

/-- Outcome of `CreateProxyRule` (after body parsing): the HTTP-visible
failure classes, or the created record. -/
inductive CreateResult where
  | validationFailed (errs : List ValidationError)
  | nameConflict (name : String)
  | domainConflict (domain owner : String)
  | storeErr
  | created (o : JObj)

/-- Is the result a domain conflict? -/
def CreateResult.isDomainConflict : CreateResult → Bool
  | .domainConflict _ _ => true
  | _ => false

/-- Is the result a successful creation? -/
def CreateResult.isCreated : CreateResult → Bool
  | .created _ => true
  | _ => false

/-- `CreateProxyRule` from the decoded record on: default
apiVersion/kind/namespace, structural validation, duplicate-name check
(store `Get`), duplicate-domain check with `excludeName=""`, then the store
write.  Every failing step returns before any store mutation. -/
def createProxyRule (st : Store) (o : JObj) : CreateResult × Store :=
  match validateProxyRuleCreate (normalizeCreate o) with
  | e :: es => (.validationFailed (e :: es), st)
  | [] =>
    match storeGet st (getName (normalizeCreate o)) with
    | some _ => (.nameConflict (getName (normalizeCreate o)), st)
    | none =>
      match checkDuplicateDomain st (normalizeCreate o) "" with
      | some (d, owner) => (.domainConflict d owner, st)
      | none =>
        match storeCreate st (normalizeCreate o) with
        | none => (.storeErr, st)
        | some st' => (.created (normalizeCreate o), st')

/-- Outcome of `UpdateProxyRule`: the HTTP-visible failure classes (including
the runtime panic when the stored record's `metadata` is not a map and the
request carries metadata updates — the handler goroutine dies before any
store write), or the updated record. -/
inductive UpdateResult where
  | badRequest
  | notFound
  | validationFailed (errs : List ValidationError)
  | domainConflict (domain owner : String)
  | panicked
  | storeErr
  | updated (o : JObj)

/-- Is the result a domain conflict? -/
def UpdateResult.isDomainConflict : UpdateResult → Bool
  | .domainConflict _ _ => true
  | _ => false

/-- Is the result a successful update? -/
def UpdateResult.isUpdated : UpdateResult → Bool
  | .updated _ => true
  | _ => false

/-- The merge step of `UpdateProxyRule`: a present `spec` replaces the
existing spec wholesale (whatever its type); present `metadata.labels` /
`metadata.annotations` replace those sub-maps of the existing metadata.
Returns `none` for the panic (`existing.Object["metadata"]` asserted to a map
while it is not one). -/
def mergeUpdates (existing updates : JObj) : Option JObj :=
  let afterSpec :=
    match jLookup updates "spec" with
    | some v => jSet existing "spec" v
    | none => existing
  match jLookup updates "metadata" with
  | some (.obj md) =>
    match jLookup afterSpec "metadata" with
    | some (.obj em) =>
      let em1 := match jLookup md "labels" with
                 | some lv => jSet em "labels" lv
                 | none => em
      let em2 := match jLookup md "annotations" with
                 | some av => jSet em1 "annotations" av
                 | none => em1
      some (jSet afterSpec "metadata" (.obj em2))
    | _ => none
  | _ => some afterSpec

/-- The tail of `UpdateProxyRule` after the merge: update-mode validation on
the merged working copy, duplicate-domain check excluding the rule itself,
then the store write. -/
def finishUpdate (st : Store) (name : String) (merged : JObj) : UpdateResult × Store :=
  match validateProxyRuleUpdate merged with
  | e :: es => (.validationFailed (e :: es), st)
  | [] =>
    match checkDuplicateDomain st merged name with
    | some (d, owner) => (.domainConflict d owner, st)
    | none =>
      match storeUpdate st merged with
      | none => (.storeErr, st)
      | some st' => (.updated merged, st')

/-- `UpdateProxyRule` from the path name and decoded body on: empty name is
rejected, the existing record is fetched (a deep copy), the updates are
merged into that working copy, and `finishUpdate` runs.  The stored original
is never touched before the final store write. -/
def updateProxyRule (st : Store) (name : String) (updates : JObj) : UpdateResult × Store :=
  if name = "" then (.badRequest, st)
  else
    match storeGet st name with
    | none => (.notFound, st)
    | some existing =>
      match mergeUpdates existing updates with
      | none => (.panicked, st)
      | some merged => finishUpdate st name merged

/-! ## Helper lemmas: which field each validator section reports on -/

theorem validateDomain_field (s : String) :
    ∀ e ∈ validateDomain s, e.field = "spec.domain" := by
  intro e he
  unfold validateDomain at he
  simp only [List.mem_append] at he
  rcases he with ((h | h) | h) | h <;> split at h <;> simp_all

theorem validateDestination_field (s : String) :
    ∀ e ∈ validateDestination s, e.field = "spec.destination" := by
  intro e he
  unfold validateDestination at he
  split at he
  · split at he <;> simp_all
  · split at he
    · simp_all
    · simp only [List.mem_append] at he
      rcases he with (h | h) | h <;> split at h <;> simp_all

theorem validateMetadata_field (o : JObj) :
    ∀ e ∈ validateMetadata o, e.field = "metadata.name" := by
  intro e he
  unfold validateMetadata at he
  split at he
  · simp_all
  · simp only [List.mem_append] at he
    rcases he with h | h <;> split at h <;> simp_all

theorem domainSection_field (spec : JObj) :
    ∀ e ∈ domainSection spec, e.field = "spec.domain" := by
  intro e he
  unfold domainSection at he
  split at he
  · simp_all
  · simp_all
  · split at he
    · simp_all
    · exact validateDomain_field _ e he

theorem destEntryErrors_field (i : Nat) (d : String) :
    ∀ e ∈ destEntryErrors i d, ∃ t, e.field = "spec.destinations[" ++ t := by
  intro e he
  unfold destEntryErrors at he
  split at he
  · simp only [List.mem_singleton] at he
    exact ⟨toString i ++ "]", by simp [he, String.append_assoc]⟩
  · simp only [List.mem_map] at he
    obtain ⟨e', _, rfl⟩ := he
    exact ⟨toString i ++ "]", by simp [String.append_assoc]⟩

theorem destsEntriesErrors_field (dests : List String) :
    ∀ i, ∀ e ∈ destsEntriesErrors i dests, ∃ t, e.field = "spec.destinations[" ++ t := by
  induction dests with
  | nil => intro i e he; simp [destsEntriesErrors] at he
  | cons d rest ih =>
    intro i e he
    unfold destsEntriesErrors at he
    simp only [List.mem_append] at he
    rcases he with h | h
    · exact destEntryErrors_field i d e h
    · exact ih (i + 1) e h

theorem destSection_field (spec : JObj) :
    ∀ e ∈ destSection spec,
      e.field = "spec.destination/destinations" ∨ e.field = "spec.destination" ∨
      e.field = "spec.destinations" ∨ ∃ t, e.field = "spec.destinations[" ++ t := by
  intro e he
  unfold destSection at he
  simp only [List.mem_append] at he
  rcases he with (h | h) | h
  · split at h <;> simp_all
  · split at h
    · simp_all
    · split at h
      · simp_all
      · exact Or.inr (Or.inl (validateDestination_field _ e h))
    · simp_all
  · split at h
    · simp_all
    · split at h
      · simp_all
      · exact Or.inr (Or.inr (Or.inr (destsEntriesErrors_field _ 0 e h)))
    · simp_all

theorem portSection_field (spec : JObj) :
    ∀ e ∈ portSection spec, e.field = "spec.port" := by
  intro e he
  unfold portSection at he
  split at he
  · simp_all
  · unfold validatePort at he; split at he <;> simp_all
  · split at he
    · unfold validatePort at he; split at he <;> simp_all
    · simp_all
  · simp_all

theorem tlsSection_field (spec : JObj) :
    ∀ e ∈ tlsSection spec, e.field = "spec.tls" := by
  intro e he
  unfold tlsSection at he
  split at he <;> simp_all

theorem annEntriesErrors_field (m : JObj) :
    ∀ e ∈ annEntriesErrors m, ∃ k, e.field = "spec.annotations." ++ k := by
  induction m with
  | nil => intro e he; simp [annEntriesErrors] at he
  | cons kv rest ih =>
    obtain ⟨k, v⟩ := kv
    intro e he
    cases v
    case str => exact ih e he
    all_goals
      simp only [annEntriesErrors, List.mem_cons] at he
      rcases he with rfl | h
      · exact ⟨k, rfl⟩
      · exact ih e h

theorem annSection_field (spec : JObj) :
    ∀ e ∈ annSection spec,
      e.field = "spec.annotations" ∨ ∃ k, e.field = "spec.annotations." ++ k := by
  intro e he
  unfold annSection at he
  split at he
  · simp_all
  · exact Or.inr (annEntriesErrors_field _ e he)
  · simp_all

/-- Strings of different lengths are different. -/
theorem strNeOfLen {a b : String} (h : a.length ≠ b.length) : a ≠ b :=
  fun hc => h (hc ▸ rfl)

/-! ## Helper lemmas: the conflict scan -/

/-- If some listed record matches the candidate domain exactly and is not
excluded, the scan reports a conflict on that domain, owned by some matching
listed record. -/
theorem scanConflict_some_of_match (items : List JObj) (d excl : String)
    (h : ∃ r ∈ items, ¬(excl ≠ "" ∧ getName r = excl) ∧
          nestedString2 r "spec" "domain" = .ok d) :
    ∃ owner, scanConflict items d excl = some (d, owner) ∧
      ∃ r ∈ items, getName r = owner ∧ nestedString2 r "spec" "domain" = .ok d := by
  induction items with
  | nil => simp at h
  | cons item rest ih =>
    by_cases hskip : excl ≠ "" ∧ getName item = excl
    · have hskipb : (decide ¬excl = "" && decide (getName item = excl)) = true := by
        simp [hskip.1, hskip.2]
      obtain ⟨r, hr, hns, hd⟩ := h
      rcases List.mem_cons.mp hr with rfl | hr'
      · exact absurd hskip hns
      · obtain ⟨owner, hscan, r', hr'', hname, hdom⟩ := ih ⟨r, hr', hns, hd⟩
        refine ⟨owner, ?_, r', List.mem_cons_of_mem _ hr'', hname, hdom⟩
        simp only [scanConflict, hskipb, if_pos]
        exact hscan
    · have hskipb : (decide ¬excl = "" && decide (getName item = excl)) = false := by
        rcases not_and_or.mp hskip with h1 | h2
        · simp [not_not.mp h1]
        · simp [h2]
      simp only [scanConflict, hskipb, Bool.false_eq_true, if_false]
      cases hlook : nestedString2 item "spec" "domain" with
      | ok existing =>
        by_cases heq : existing = d
        · subst heq
          exact ⟨getName item, by simp,
            item, List.mem_cons_self _ _, rfl, hlook⟩
        · simp only [heq, if_false]
          obtain ⟨r, hr, hns, hd⟩ := h
          rcases List.mem_cons.mp hr with rfl | hr'
          · rw [hlook] at hd; cases hd; exact absurd rfl heq
          · obtain ⟨owner, hscan, r', hr'', hname, hdom⟩ := ih ⟨r, hr', hns, hd⟩
            exact ⟨owner, hscan, r', List.mem_cons_of_mem _ hr'', hname, hdom⟩
      | missing =>
        obtain ⟨r, hr, hns, hd⟩ := h
        rcases List.mem_cons.mp hr with rfl | hr'
        · rw [hlook] at hd; cases hd
        · obtain ⟨owner, hscan, r', hr'', hname, hdom⟩ := ih ⟨r, hr', hns, hd⟩
          exact ⟨owner, hscan, r', List.mem_cons_of_mem _ hr'', hname, hdom⟩
      | typeErr =>
        obtain ⟨r, hr, hns, hd⟩ := h
        rcases List.mem_cons.mp hr with rfl | hr'
        · rw [hlook] at hd; cases hd
        · obtain ⟨owner, hscan, r', hr'', hname, hdom⟩ := ih ⟨r, hr', hns, hd⟩
          exact ⟨owner, hscan, r', List.mem_cons_of_mem _ hr'', hname, hdom⟩

/-- If no listed record both escapes the exclusion and matches the candidate
domain exactly, the scan reports no conflict. -/
theorem scanConflict_none_of_no_match (items : List JObj) (d excl : String)
    (h : ∀ r ∈ items, (excl ≠ "" ∧ getName r = excl) ∨
          nestedString2 r "spec" "domain" ≠ .ok d) :
    scanConflict items d excl = none := by
  induction items with
  | nil => rfl
  | cons item rest ih =>
    have hrest : scanConflict rest d excl = none :=
      ih (fun r hr => h r (List.mem_cons_of_mem _ hr))
    by_cases hskip : excl ≠ "" ∧ getName item = excl
    · have hskipb : (decide ¬excl = "" && decide (getName item = excl)) = true := by
        simp [hskip.1, hskip.2]
      simp only [scanConflict, hskipb, if_pos]
      exact hrest
    · have hskipb : (decide ¬excl = "" && decide (getName item = excl)) = false := by
        rcases not_and_or.mp hskip with h1 | h2
        · simp [not_not.mp h1]
        · simp [h2]
      simp only [scanConflict, hskipb, Bool.false_eq_true, if_false]
      cases hlook : nestedString2 item "spec" "domain" with
      | ok existing =>
        have : existing ≠ d := by
          rcases h item (List.mem_cons_self _ _) with hc | hc
          · exact absurd hc hskip
          · intro he; exact hc (he ▸ hlook)
        simp only [this, if_false]
        exact hrest
      | missing => exact hrest
      | typeErr => exact hrest

/-- A reported conflict always carries the candidate's domain and names a
non-excluded live record that holds exactly that domain. -/
theorem scanConflict_some_inv (items : List JObj) (d excl : String) :
    ∀ d' owner, scanConflict items d excl = some (d', owner) →
      d' = d ∧ ∃ r ∈ items, getName r = owner ∧ ¬(excl ≠ "" ∧ getName r = excl) ∧
        nestedString2 r "spec" "domain" = .ok d := by
  induction items with
  | nil => intro d' owner h; simp [scanConflict] at h
  | cons item rest ih =>
    intro d' owner h
    unfold scanConflict at h
    split at h
    · obtain ⟨hd, r, hr, hname, hskip, hdom⟩ := ih d' owner h
      exact ⟨hd, r, List.mem_cons_of_mem _ hr, hname, hskip, hdom⟩
    · rename_i hnoskip
      split at h
      · rename_i existing hlook
        split at h
        · rename_i heq
          simp only [Option.some.injEq, Prod.mk.injEq] at h
          refine ⟨h.1.symm, item, List.mem_cons_self _ _, h.2, ?_, heq ▸ hlook⟩
          intro ⟨hx, hn⟩
          exact hnoskip (by simp [hx, hn])
        · obtain ⟨hd, r, hr, hname, hskip, hdom⟩ := ih d' owner h
          exact ⟨hd, r, List.mem_cons_of_mem _ hr, hname, hskip, hdom⟩
      · obtain ⟨hd, r, hr, hname, hskip, hdom⟩ := ih d' owner h
        exact ⟨hd, r, List.mem_cons_of_mem _ hr, hname, hskip, hdom⟩

/-! ## Helper lemmas: ASCII case folding

The modelled case maps are the ASCII maps, so the universally quantified
case-folding statements carry an ASCII hypothesis (on ASCII strings the
model agrees with Go's `strings.ToLower`/`ToUpper`). -/

/-- Is every character of the string ASCII? -/
def allASCII (s : String) : Bool := s.data.all (fun c => c.toNat < 128)

theorem lowerUpperFin :
    ∀ n : Fin 128, goLowerChar (goUpperChar (Char.ofNat n.val)) =
      goLowerChar (Char.ofNat n.val) := by decide

theorem upperDotFin :
    ∀ n : Fin 128, (goUpperChar (Char.ofNat n.val) = '.') ↔
      (Char.ofNat n.val = '.') := by decide

theorem upperSizeFin :
    ∀ n : Fin 128, (goUpperChar (Char.ofNat n.val)).utf8Size =
      (Char.ofNat n.val).utf8Size := by decide

theorem lowerUpperChar {c : Char} (h : c.toNat < 128) :
    goLowerChar (goUpperChar c) = goLowerChar c := by
  have := lowerUpperFin ⟨c.toNat, h⟩
  simpa [Char.ofNat_toNat] using this

theorem upperCharDot {c : Char} (h : c.toNat < 128) :
    goUpperChar c = '.' ↔ c = '.' := by
  have := upperDotFin ⟨c.toNat, h⟩
  simpa [Char.ofNat_toNat] using this

theorem upperCharSize {c : Char} (h : c.toNat < 128) :
    (goUpperChar c).utf8Size = c.utf8Size := by
  have := upperSizeFin ⟨c.toNat, h⟩
  simpa [Char.ofNat_toNat] using this

/-- Lowercasing after uppercasing is just lowercasing, on ASCII strings. -/
theorem toLower_toUpper {s : String} (h : allASCII s = true) :
    goToLower (goToUpper s) = goToLower s := by
  unfold goToLower goToUpper
  simp only [List.all_eq_true, decide_eq_true_eq] at *
  show String.mk ((s.data.map goUpperChar).map goLowerChar) = _
  rw [List.map_map]
  exact congrArg String.mk
    (List.map_congr_left fun c hc => lowerUpperChar (by
      unfold allASCII at h
      simp only [List.all_eq_true, decide_eq_true_eq] at h
      exact h c hc))

theorem byteLen_map_upper (l : List Char) (h : ∀ c ∈ l, c.toNat < 128) :
    byteLen (l.map goUpperChar) = byteLen l := by
  induction l with
  | nil => rfl
  | cons c cs ih =>
    simp only [List.map_cons, byteLen]
    rw [upperCharSize (h c (List.mem_cons_self _ _)),
      ih (fun c' hc' => h c' (List.mem_cons_of_mem _ hc'))]

theorem goLen_toUpper {s : String} (h : allASCII s = true) :
    goLen (goToUpper s) = goLen s := by
  unfold allASCII at h
  simp only [List.all_eq_true, decide_eq_true_eq] at h
  exact byteLen_map_upper s.data h

theorem startsWithDot_toUpper {s : String} (h : allASCII s = true) :
    startsWithDot (goToUpper s) = startsWithDot s := by
  unfold allASCII at h
  simp only [List.all_eq_true, decide_eq_true_eq] at h
  unfold startsWithDot goToUpper
  rw [decide_eq_decide]
  show (s.data.map goUpperChar).head? = some '.' ↔ s.data.head? = some '.'
  cases hd : s.data with
  | nil => simp
  | cons c cs =>
    have hc := h c (hd ▸ List.mem_cons_self _ _)
    simp only [List.map_cons, List.head?_cons, Option.some.injEq]
    exact upperCharDot hc

theorem endsWithDot_toUpper {s : String} (h : allASCII s = true) :
    endsWithDot (goToUpper s) = endsWithDot s := by
  unfold allASCII at h
  simp only [List.all_eq_true, decide_eq_true_eq] at h
  unfold endsWithDot goToUpper
  rw [decide_eq_decide]
  show (s.data.map goUpperChar).getLast? = some '.' ↔ s.data.getLast? = some '.'
  rw [List.getLast?_map]
  cases hl : s.data.getLast? with
  | none => simp
  | some c =>
    have hc : c ∈ s.data := List.mem_of_mem_getLast? hl
    simp only [Option.map_some', Option.some.injEq]
    exact upperCharDot (h c hc)

theorem hasConsecDotsL_map_upper (l : List Char) (h : ∀ c ∈ l, c.toNat < 128) :
    hasConsecDotsL (l.map goUpperChar) = hasConsecDotsL l := by
  induction l with
  | nil => rfl
  | cons c1 tail ih =>
    cases tail with
    | nil => rfl
    | cons c2 rest =>
      have h1 := h c1 (List.mem_cons_self _ _)
      have h2 := h c2 (List.mem_cons_of_mem _ (List.mem_cons_self _ _))
      have ih' := ih (fun c' hc' => h c' (List.mem_cons_of_mem _ hc'))
      simp only [List.map_cons] at ih'
      simp only [List.map_cons, hasConsecDotsL, ih']
      simp only [upperCharDot h1, upperCharDot h2]

theorem hasConsecDots_toUpper {s : String} (h : allASCII s = true) :
    hasConsecDots (goToUpper s) = hasConsecDots s := by
  unfold allASCII at h
  simp only [List.all_eq_true, decide_eq_true_eq] at h
  exact hasConsecDotsL_map_upper s.data h

/-! ## Helper lemmas: IPv4-shaped strings dispatch to the IPv4 parser -/

theorem splitOn_ne_nil (sep : Char) (l : List Char) : splitOn sep l ≠ [] := by
  cases l with
  | nil => simp [splitOn]
  | cons c cs =>
    unfold splitOn
    split
    · simp
    · cases splitOn sep cs <;> simp

/-- Every character of a list is the separator or lies in one of its
separator-split groups. -/
theorem splitOn_sep_or_part (sep : Char) (l : List Char) :
    ∀ c ∈ l, c = sep ∨ ∃ p ∈ splitOn sep l, c ∈ p := by
  induction l with
  | nil => simp
  | cons x cs ih =>
    intro c hc
    unfold splitOn
    split
    · rename_i hx
      rcases List.mem_cons.mp hc with rfl | hc'
      · exact Or.inl hx
      · rcases ih c hc' with h | ⟨p, hp, hcp⟩
        · exact Or.inl h
        · exact Or.inr ⟨p, List.mem_cons_of_mem _ hp, hcp⟩
    · cases hsp : splitOn sep cs with
      | nil => exact absurd hsp (splitOn_ne_nil sep cs)
      | cons g gs =>
        rcases List.mem_cons.mp hc with rfl | hc'
        · exact Or.inr ⟨c :: g, List.mem_cons_self _ _, List.mem_cons_self _ _⟩
        · rcases ih c hc' with h | ⟨p, hp, hcp⟩
          · exact Or.inl h
          · rw [hsp] at hp
            rcases List.mem_cons.mp hp with rfl | hp'
            · exact Or.inr ⟨x :: p, List.mem_cons_self _ _, List.mem_cons_of_mem _ hcp⟩
            · exact Or.inr ⟨p, List.mem_cons_of_mem _ hp', hcp⟩

/-- More than one split group forces the separator to occur in the list. -/
theorem sep_mem_of_splitOn_len (sep : Char) (l : List Char)
    (h : 1 < (splitOn sep l).length) : sep ∈ l := by
  induction l with
  | nil => simp [splitOn] at h
  | cons x cs ih =>
    unfold splitOn at h
    split at h
    · rename_i hx
      exact hx ▸ List.mem_cons_self _ _
    · cases hsp : splitOn sep cs with
      | nil => exact absurd hsp (splitOn_ne_nil sep cs)
      | cons g gs =>
        rw [hsp] at h
        simp only [List.length_cons] at h
        exact List.mem_cons_of_mem _ (ih (by rw [hsp]; simp; omega))

/-- A digit is not one of the special dispatch characters. -/
theorem digit_not_special {c : Char} (h : isDigitChar c = true) :
    (c = '.' || c = ':' || c = '%') = false := by
  unfold isDigitChar at h
  simp only [Bool.and_eq_true, decide_eq_true_eq] at h
  simp only [Bool.or_eq_false_iff, decide_eq_false_iff_not]
  refine ⟨⟨?_, ?_⟩, ?_⟩ <;> intro hc <;> subst hc <;> exact absurd h (by decide)

/-- On a list of digits and dots that contains a dot, the first special
character is the dot. -/
theorem firstSpecial_dot (l : List Char)
    (hall : ∀ c ∈ l, isDigitChar c = true ∨ c = '.')
    (hdot : '.' ∈ l) : firstSpecial l = some '.' := by
  induction l with
  | nil => simp at hdot
  | cons x cs ih =>
    by_cases hx : x = '.'
    · subst hx
      unfold firstSpecial
      rw [List.find?_cons_of_pos _ (by simp)]
    · have hxd : isDigitChar x = true := by
        rcases hall x (List.mem_cons_self _ _) with h | h
        · exact h
        · exact absurd h hx
      unfold firstSpecial
      rw [List.find?_cons_of_neg _ (by simp [digit_not_special hxd])]
      exact ih (fun c hc => hall c (List.mem_cons_of_mem _ hc))
        (by rcases List.mem_cons.mp hdot with h | h
            · exact absurd h.symm hx
            · exact h)

/-- An IPv4-shaped string is made of digits and dots and contains a dot, so
`ParseIP` dispatches to the IPv4 parser. -/
theorem goParseIP_of_shape {s : String} (h : ipv4Shape s = true) :
    goParseIPValid s = parseIPv4Valid s.data := by
  unfold ipv4Shape ipv4ShapeL at h
  simp only [Bool.and_eq_true, decide_eq_true_eq, List.all_eq_true] at h
  obtain ⟨hlen, hparts⟩ := h
  have hall : ∀ c ∈ s.data, isDigitChar c = true ∨ c = '.' := by
    intro c hc
    rcases splitOn_sep_or_part '.' s.data c hc with h | ⟨p, hp, hcp⟩
    · exact Or.inr h
    · obtain ⟨_, hdig⟩ := hparts p hp
      exact Or.inl (hdig c hcp)
  have hdot : '.' ∈ s.data :=
    sep_mem_of_splitOn_len '.' s.data (by omega)
  unfold goParseIPValid
  rw [firstSpecial_dot s.data hall hdot]
  rfl

/-! ## Generic small helpers -/

/-- Appending to a string strictly longer than another never yields it. -/
theorem appendLongNe (a t b : String) (h : b.length < a.length) : a ++ t ≠ b := by
  apply strNeOfLen
  rw [String.length_append]
  omega

/-! ## Concrete records used by the counterexamples and witnesses -/

/-- A stored rule as the test seeder (`testutil.NewProxyRule`) builds it. -/
def mkRule (name domain dest : String) : JObj :=
  [("apiVersion", .str "bausteln.io/v1"), ("kind", .str "Proxyrule"),
   ("metadata", .obj [("name", .str name), ("namespace", .str "proxy-rules")]),
   ("spec", .obj [("domain", .str domain), ("destination", .str dest), ("tls", .boolV true)])]

/-- The single validation error produced for an IPv4-looking destination that
does not parse. -/
def ipv4InvalidError : ValidationError :=
  ⟨"spec.destination", "destination appears to be an IPv4 address but is invalid (octets must be 0-255)"⟩

/-! ## The claims -/

/-- **C10.** `ValidateRequestBody` (run by the Create and Update handlers on
every mutating request body) rejects the empty body and every body longer
than `MaxRequestBodySize = 1048576` bytes with a field error on `body`, and
accepts exactly the bodies whose length lies in `[1, 1048576]`. -/
theorem request_body_size_bounds (body : List Nat) :
    (validateRequestBody body = none ↔
      1 ≤ body.length ∧ body.length ≤ MaxRequestBodySize) ∧
    (∀ e, validateRequestBody body = some e → e.field = "body") := by
  unfold validateRequestBody MaxRequestBodySize
  constructor
  · constructor
    · intro h
      split at h
      · simp at h
      · split at h
        · simp at h
        · omega
    · intro ⟨h1, h2⟩
      rw [if_neg (by omega), if_neg (by omega)]
  · intro e he
    split at he
    · cases he; rfl
    · split at he
      · cases he; rfl
      · simp at he

/-- Witness for C10 at a one-byte body. -/
theorem request_body_size_bounds_witness : validateRequestBody [72] = none :=
  (request_body_size_bounds [72]).1.mpr (by decide)

/-- The create request of the TLS-defaulting check: a valid rule whose spec
carries no `tls` field. -/
def objC3 : JObj :=
  [("metadata", .obj [("name", .str "test-rule")]),
   ("spec", .obj [("domain", .str "example.com"), ("destination", .str "10.0.0.50")])]

/-- The spec of `objC3` (unchanged by defaulting). -/
def specC3 : JObj :=
  [("domain", .str "example.com"), ("destination", .str "10.0.0.50")]

/-- **C3.** Evaluating `CreateProxyRule` on a valid request whose spec omits
`tls`: the create succeeds, but the stored record's spec still has no `tls`
field — the handler defaults only apiVersion/kind/namespace, never
`spec.tls`, contradicting the documented default of `true`. -/
theorem create_does_not_default_tls :
    (createProxyRule [] objC3).1 = .created (normalizeCreate objC3) ∧
    (createProxyRule [] objC3).2 = [("test-rule", normalizeCreate objC3)] ∧
    nestedMapN (normalizeCreate objC3) "spec" = .ok specC3 ∧
    jLookup specC3 "tls" = none :=
  ⟨rfl, rfl, rfl, rfl⟩

/-- **C5 counterexample.** `"010.0.0.1"` is four dot-separated all-digit
groups, every group is at most 255, yet `ValidateDestination` reports the
invalid-IPv4 error (Go's parser also rejects leading zeros) — refuting the
claim that such strings are valid and error-free. -/
theorem leading_zero_ipv4_rejected :
    ipv4Shape "010.0.0.1" = true ∧
    (splitOn '.' "010.0.0.1".data).all (fun g => digitsToNat g ≤ 255) = true ∧
    validateDestination "010.0.0.1" = [ipv4InvalidError] := by
  refine ⟨by decide, by decide, rfl⟩

/-- **C5 (amended).** For every IPv4-shaped string (four dot-separated
all-digit groups), `ValidateDestination` returns exactly the single
invalid-IPv4 error when the string fails Go's IPv4 parse (a group above 255,
longer than needed, or with a leading zero) and no error at all when it
parses; in particular no DNS-grammar or dot error is ever reported for an
IPv4-shaped value. -/
theorem ipv4_shaped_destination_errors (s : String) (h : ipv4Shape s = true) :
    validateDestination s =
      (if parseIPv4Valid s.data then [] else [ipv4InvalidError]) := by
  unfold validateDestination
  rw [if_pos h, goParseIP_of_shape h]
  cases hp : parseIPv4Valid s.data <;> simp [hp, ipv4InvalidError]

/-- Witness for C5 at the spec's own example `"10.300.500.400"`. -/
theorem ipv4_shaped_destination_errors_witness :
    validateDestination "10.300.500.400" =
      (if parseIPv4Valid "10.300.500.400".data then [] else [ipv4InvalidError]) :=
  ipv4_shaped_destination_errors "10.300.500.400" (by decide)

/-- **C8.** Domain syntax validation is case-insensitive: any ASCII domain
accepted by `ValidateDomain` is still accepted after uppercasing (the
grammar check lowercases its input; the length and dot checks are
case-blind). -/
theorem validateDomain_case_insensitive (d : String) (ha : allASCII d = true)
    (hv : validateDomain d = []) : validateDomain (goToUpper d) = [] := by
  unfold validateDomain at hv ⊢
  simp only [goLen_toUpper ha, toLower_toUpper ha, startsWithDot_toUpper ha,
    endsWithDot_toUpper ha, hasConsecDots_toUpper ha]
  exact hv

/-- Witness for C8 at `"example.com"`: both the domain and its uppercasing
pass with no errors. -/
theorem validateDomain_case_insensitive_witness :
    validateDomain "example.com" = [] ∧
    validateDomain (goToUpper "example.com") = [] :=
  ⟨rfl, validateDomain_case_insensitive "example.com" (by decide) rfl⟩

/-- The at-least-one-destination error. -/
def destRequiredError : ValidationError :=
  ⟨"spec.destination/destinations", "either destination or destinations is required"⟩

/-- **C9.** A present-but-empty `spec.destination` with `spec.destinations`
absent or empty is treated as absent: structural validation reports the
either-required error and emits no destination-syntax error for the empty
string (no error is scoped to `spec.destination`). -/
theorem empty_destination_treated_as_absent (o spec : JObj)
    (hs : nestedMapN o "spec" = .ok spec)
    (hd : jLookup spec "destination" = some (.str ""))
    (hds : jLookup spec "destinations" = none ∨
           jLookup spec "destinations" = some (.arr [])) :
    destRequiredError ∈ validateProxyRuleCreate o ∧
    ∀ e ∈ validateProxyRuleCreate o, e.field ≠ "spec.destination" := by
  have hdest : nestedString spec "destination" = .ok "" := by
    unfold nestedString; rw [hd]
  have hdsec : destSection spec = [destRequiredError] := by
    unfold destSection
    rcases hds with h | h <;>
      simp [nestedStringSliceN, h, hdest, destEmpty, destsEmpty, stringElems,
        destRequiredError]
  have hvc : validateProxyRuleCreate o =
      validateMetadata o ++ (domainSection spec ++ destSection spec ++
        portSection spec ++ tlsSection spec ++ annSection spec) := by
    unfold validateProxyRuleCreate validateSpec
    rw [hs]
  constructor
  · rw [hvc, hdsec]
    refine List.mem_append_right _ ?_
    refine List.mem_append_left _ ?_
    refine List.mem_append_left _ ?_
    refine List.mem_append_left _ ?_
    exact List.mem_append_right _ (List.mem_singleton.mpr rfl)
  · intro e he
    rw [hvc, hdsec] at he
    rcases List.mem_append.mp he with hm | hrest
    · rw [validateMetadata_field o e hm]; decide
    · rcases List.mem_append.mp hrest with hrest2 | ha
      · rcases List.mem_append.mp hrest2 with hrest3 | ht
        · rcases List.mem_append.mp hrest3 with hrest4 | hp
          · rcases List.mem_append.mp hrest4 with hdo | hde
            · rw [domainSection_field spec e hdo]; decide
            · rw [List.mem_singleton.mp hde]; decide
          · rw [portSection_field spec e hp]; decide
        · rw [tlsSection_field spec e ht]; decide
      · rcases annSection_field spec e ha with h | ⟨k, hk⟩
        · rw [h]; decide
        · rw [hk]
          exact appendLongNe "spec.annotations." k "spec.destination" (by decide)

/-- The create request of the C9 witness: empty destination string, no
destinations array. -/
def objC9 : JObj :=
  [("metadata", .obj [("name", .str "t")]),
   ("spec", .obj [("domain", .str "example.com"), ("destination", .str "")])]

/-- Witness for C9 at a concrete record. -/
theorem empty_destination_treated_as_absent_witness :
    destRequiredError ∈ validateProxyRuleCreate objC9 ∧
    ∀ e ∈ validateProxyRuleCreate objC9, e.field ≠ "spec.destination" :=
  empty_destination_treated_as_absent objC9
    [("domain", .str "example.com"), ("destination", .str "")]
    rfl rfl (Or.inl rfl)

/-- The create request of the C4 counterexample: a wire record whose port is
the JSON number `0` (decoded as a float64). -/
def objC4 : JObj :=
  [("metadata", .obj [("name", .str "test-rule")]),
   ("spec", .obj [("domain", .str "example.com"), ("destination", .str "10.0.0.50"),
                  ("port", .numV 0)])]

/-- The spec of `objC4`. -/
def specC4 : JObj :=
  [("domain", .str "example.com"), ("destination", .str "10.0.0.50"),
   ("port", .numV 0)]

/-- **C4 counterexample.** A record carrying `"port": 0` on the wire (a JSON
number, decoded as float64) passes structural validation with no error at
all: the float is truncated to the int64 `0`, and the nonzero guard then
skips `validatePort` — refuting the claim that every present port value at
most 0 yields an error. -/
theorem float_port_zero_accepted :
    nestedMapN objC4 "spec" = .ok specC4 ∧
    jLookup specC4 "port" = some (.numV 0) ∧
    validateProxyRuleCreate objC4 = [] :=
  ⟨rfl, rfl, rfl⟩

/-- When a present port value must produce a `spec.port` error, read off the
source's port handling: an out-of-range int64, a float64 whose truncation
toward zero is nonzero and out of range, or any non-numeric type. -/
def portErrorExpected (v : JValue) : Prop :=
  match v with
  | .intV n => n < minPort ∨ n > maxPort
  | .numV q => goFloatToInt64 q ≠ 0 ∧
      (goFloatToInt64 q < minPort ∨ goFloatToInt64 q > maxPort)
  | _ => True

/-- The port checks produce an error exactly under `portErrorExpected`. -/
theorem portSection_ne_nil_iff (spec : JObj) (v : JValue)
    (hp : jLookup spec "port" = some v) :
    portSection spec ≠ [] ↔ portErrorExpected v := by
  cases v with
  | intV n =>
    simp only [portSection, portErrorExpected, hp, validatePort]
    by_cases hc : n < minPort ∨ n > maxPort
    · rw [if_pos (by simpa using hc)]
      simp [hc]
    · rw [if_neg (by simpa using hc)]
      simp [hc]
  | numV q =>
    simp only [portSection, portErrorExpected, hp, validatePort]
    by_cases h0 : goFloatToInt64 q = 0
    · rw [if_neg (by simp [h0])]
      simp [h0]
    · rw [if_pos h0]
      by_cases hc : goFloatToInt64 q < minPort ∨ goFloatToInt64 q > maxPort
      · rw [if_pos (by simpa using hc)]
        simp [h0, hc]
      · rw [if_neg (by simpa using hc)]
        simp [h0, hc]
  | str s => simp [portSection, portErrorExpected, hp]
  | boolV b => simp [portSection, portErrorExpected, hp]
  | nullV => simp [portSection, portErrorExpected, hp]
  | arr l => simp [portSection, portErrorExpected, hp]
  | obj m => simp [portSection, portErrorExpected, hp]

/-- **C4 (amended).** For a record with a well-typed `spec` carrying a
`port` field, structural validation reports some `spec.port` error exactly
when: the value is an int64 outside `[1, 65535]`; or the value is a float64
whose truncation toward zero is nonzero and outside `[1, 65535]` (so
non-integral floats are accepted via truncation, and any float truncating
to zero — including `0.0` itself — is accepted silently); or the value is of
any other type. -/
theorem port_errors_characterization (o spec : JObj) (v : JValue)
    (hs : nestedMapN o "spec" = .ok spec)
    (hp : jLookup spec "port" = some v) :
    (∃ e ∈ validateSpec o, e.field = "spec.port") ↔ portErrorExpected v := by
  have hvs : validateSpec o = domainSection spec ++ destSection spec ++
      portSection spec ++ tlsSection spec ++ annSection spec := by
    unfold validateSpec; rw [hs]
  rw [hvs, ← portSection_ne_nil_iff spec v hp]
  constructor
  · rintro ⟨e, he, hf⟩
    rcases List.mem_append.mp he with hrest2 | ha
    · rcases List.mem_append.mp hrest2 with hrest3 | ht
      · rcases List.mem_append.mp hrest3 with hrest4 | hport
        · rcases List.mem_append.mp hrest4 with hdo | hde
          · rw [domainSection_field spec e hdo] at hf; simp at hf
          · rcases destSection_field spec e hde with h | h | h | ⟨t, h⟩ <;>
              rw [h] at hf
            · simp at hf
            · simp at hf
            · simp at hf
            · exact absurd hf (appendLongNe "spec.destinations[" t "spec.port" (by decide))
        · exact List.ne_nil_of_mem hport
      · rw [tlsSection_field spec e ht] at hf; simp at hf
    · rcases annSection_field spec e ha with h | ⟨k, hk⟩
      · rw [h] at hf; simp at hf
      · rw [hk] at hf
        exact absurd hf (appendLongNe "spec.annotations." k "spec.port" (by decide))
  · intro hne
    obtain ⟨e', he'⟩ := List.exists_mem_of_ne_nil _ hne
    exact ⟨e', List.mem_append_left _ (List.mem_append_left _
      (List.mem_append_right _ he')), portSection_field spec e' he'⟩

/-- Witness for C4 at the spec's Scenario-E port `99999` (an int64 as stored
records carry it): a `spec.port` error is reported. -/
theorem port_errors_characterization_witness :
    ∃ e ∈ validateSpec
      [("spec", JValue.obj [("domain", .str "test.example.com"),
        ("destination", .str "10.0.0.50"), ("port", .intV 99999)])],
      e.field = "spec.port" :=
  (port_errors_characterization
    [("spec", JValue.obj [("domain", .str "test.example.com"),
      ("destination", .str "10.0.0.50"), ("port", .intV 99999)])]
    [("domain", .str "test.example.com"), ("destination", .str "10.0.0.50"),
     ("port", .intV 99999)]
    (.intV 99999) rfl rfl).mpr (by unfold portErrorExpected; decide)

/-- **C6.** A failing Create or Update — validation failure, name conflict,
domain conflict, not-found, bad request, or even the metadata-assertion
panic — returns the store exactly as it was: every failure path returns
before the store write, and update-mode validation runs on the deep-copied
working record, never the stored original. -/
theorem failed_mutation_leaves_store_unchanged (st : Store) (o : JObj)
    (name : String) (upd : JObj) :
    ((createProxyRule st o).1.isCreated = false → (createProxyRule st o).2 = st) ∧
    ((updateProxyRule st name upd).1.isUpdated = false →
      (updateProxyRule st name upd).2 = st) := by
  constructor
  · intro h
    unfold createProxyRule at h ⊢
    repeat' split at h
    all_goals simp_all [CreateResult.isCreated]
  · intro h
    unfold updateProxyRule finishUpdate at h ⊢
    repeat' split at h
    all_goals simp_all [UpdateResult.isUpdated]

/-- Witness for C6: a create with an invalid record and an update of a
missing rule both leave the empty store empty. -/
theorem failed_mutation_leaves_store_unchanged_witness :
    (createProxyRule [] []).2 = ([] : Store) ∧
    (updateProxyRule [] "missing-rule" []).2 = ([] : Store) :=
  ⟨(failed_mutation_leaves_store_unchanged [] [] "missing-rule" []).1 rfl,
   (failed_mutation_leaves_store_unchanged [] [] "missing-rule" []).2 rfl⟩

/-- A store holding one live rule named `rule1` for `example.com`. -/
def stC1 : Store := [("rule1", mkRule "rule1" "example.com" "10.0.0.50")]

/-- The C1 counterexample request: its domain matches the live record's, but
its name also collides. -/
def objC1 : JObj :=
  [("metadata", .obj [("name", .str "rule1")]),
   ("spec", .obj [("domain", .str "example.com"), ("destination", .str "10.0.0.50")])]

/-- **C1 counterexample.** A create request whose `spec.domain` equals a
live record's domain does not always fail with DomainConflict: when its name
also collides, the duplicate-name check fires first and the result is
NameConflict. -/
theorem duplicate_domain_yields_nameConflict_first :
    candDomain (normalizeCreate objC1) = some "example.com" ∧
    nestedString2 (mkRule "rule1" "example.com" "10.0.0.50") "spec" "domain" =
      .ok "example.com" ∧
    (createProxyRule stC1 objC1).1 = .nameConflict "rule1" ∧
    (createProxyRule stC1 objC1).1.isDomainConflict = false :=
  ⟨rfl, rfl, rfl, rfl⟩

/-- **C1 (amended).** A create request that passes structural validation and
the duplicate-name check, and whose domain equals the stored domain of some
live record, fails with DomainConflict naming that domain and an owning
rule, performs no store write, and is never reported as created — so every
successful Create preserves domain uniqueness among live records. -/
theorem create_domainConflict_after_prior_checks (st : Store) (o : JObj) (d : String)
    (hval : validateProxyRuleCreate (normalizeCreate o) = [])
    (hname : storeGet st (getName (normalizeCreate o)) = none)
    (hd : candDomain (normalizeCreate o) = some d)
    (hlive : ∃ r ∈ storeList st, nestedString2 r "spec" "domain" = .ok d) :
    (∃ owner, (createProxyRule st o).1 = .domainConflict d owner ∧
      ∃ r ∈ storeList st, getName r = owner ∧
        nestedString2 r "spec" "domain" = .ok d) ∧
    (createProxyRule st o).2 = st ∧
    ∀ r, (createProxyRule st o).1 ≠ .created r := by
  obtain ⟨r0, hr0, hd0⟩ := hlive
  obtain ⟨owner, hscan, hwit⟩ := scanConflict_some_of_match (storeList st) d ""
    ⟨r0, hr0, by simp, hd0⟩
  have hchk : checkDuplicateDomain st (normalizeCreate o) "" = some (d, owner) := by
    unfold checkDuplicateDomain
    rw [hd]
    exact hscan
  unfold createProxyRule
  rw [hval, hname, hchk]
  refine ⟨⟨owner, rfl, ?_⟩, rfl, ?_⟩
  · obtain ⟨r, hr, hnm, hdom⟩ := hwit
    exact ⟨r, hr, hnm, hdom⟩
  · intro r hcon
    cases hcon

/-- The domain-conflicting create request of the C1/C2 witnesses: a fresh
name, the same domain as `stC1`'s live rule. -/
def objC1W : JObj :=
  [("metadata", .obj [("name", .str "rule2")]),
   ("spec", .obj [("domain", .str "example.com"), ("destination", .str "10.0.0.60")])]

/-- Witness for C1 at the repo's own duplicate-domain test scenario. -/
theorem create_domainConflict_after_prior_checks_witness :
    (∃ owner, (createProxyRule stC1 objC1W).1 = .domainConflict "example.com" owner ∧
      ∃ r ∈ storeList stC1, getName r = owner ∧
        nestedString2 r "spec" "domain" = .ok "example.com") ∧
    (createProxyRule stC1 objC1W).2 = stC1 ∧
    ∀ r, (createProxyRule stC1 objC1W).1 ≠ .created r :=
  create_domainConflict_after_prior_checks stC1 objC1W "example.com" rfl rfl rfl
    ⟨mkRule "rule1" "example.com" "10.0.0.50", by simp [stC1, storeList], rfl⟩

/-- A store holding one live rule whose stored domain is mixed-case (which
validation accepts unchanged). -/
def stC2 : Store := [("rule1", mkRule "rule1" "Example.Com" "10.0.0.50")]

/-- **C2 counterexample.** The stored record legitimately carries the
mixed-case domain `"Example.Com"` (validation accepts it without
canonicalizing), and a create for `"example.com"` — the same domain up to
case — does not conflict: it succeeds. -/
theorem domain_case_variant_no_conflict :
    validateDomain "Example.Com" = [] ∧
    nestedString2 (mkRule "rule1" "Example.Com" "10.0.0.50") "spec" "domain" =
      .ok "Example.Com" ∧
    goToLower "Example.Com" = goToLower "example.com" ∧
    candDomain (normalizeCreate objC1W) = some "example.com" ∧
    (createProxyRule stC2 objC1W).1.isDomainConflict = false ∧
    (createProxyRule stC2 objC1W).1.isCreated = true :=
  ⟨rfl, rfl, rfl, rfl, rfl, rfl⟩

/-- **C2 (amended).** The Conflict Checker compares domains by exact,
case-sensitive string equality (no canonicalization happens anywhere):
given a candidate carrying domain `d`, a conflict is reported iff some
non-excluded live record stores exactly the string `d`. -/
theorem checkDuplicateDomain_exact_match_iff (st : Store) (o : JObj) (excl d : String)
    (hd : candDomain o = some d) :
    (checkDuplicateDomain st o excl).isSome = true ↔
      ∃ r ∈ storeList st, ¬(excl ≠ "" ∧ getName r = excl) ∧
        nestedString2 r "spec" "domain" = .ok d := by
  have hck : checkDuplicateDomain st o excl = scanConflict (storeList st) d excl := by
    unfold checkDuplicateDomain
    rw [hd]
  rw [hck]
  constructor
  · intro h
    cases hsc : scanConflict (storeList st) d excl with
    | none => rw [hsc] at h; simp at h
    | some pr =>
      obtain ⟨d', owner⟩ := pr
      obtain ⟨_, r, hr, _, hskip, hdom⟩ :=
        scanConflict_some_inv (storeList st) d excl d' owner hsc
      exact ⟨r, hr, hskip, hdom⟩
  · intro ⟨r, hr, hskip, hdom⟩
    obtain ⟨owner, hscan, _⟩ :=
      scanConflict_some_of_match (storeList st) d excl ⟨r, hr, hskip, hdom⟩
    rw [hscan]
    rfl

/-- Witness for C2: with an exactly equal stored domain the check does
report a conflict. -/
theorem checkDuplicateDomain_exact_match_witness :
    (checkDuplicateDomain stC1 (normalizeCreate objC1W) "").isSome = true :=
  (checkDuplicateDomain_exact_match_iff stC1 (normalizeCreate objC1W) ""
    "example.com" rfl).mpr
    ⟨mkRule "rule1" "example.com" "10.0.0.50", by simp [stC1, storeList],
     by simp, rfl⟩

/-- **C7.** An update of rule `n` whose merged record's domain is stored
only by rule `n` itself never fails with DomainConflict: the conflict check
with `excludeName = n` skips the rule's own pre-image. -/
theorem update_no_self_domain_conflict (st : Store) (n : String) (upd : JObj)
    (h : ∀ ex, storeGet st n = some ex →
         ∀ merged, mergeUpdates ex upd = some merged →
         ∀ d, candDomain merged = some d →
         ∀ r ∈ storeList st, nestedString2 r "spec" "domain" = .ok d →
           getName r = n) :
    (updateProxyRule st n upd).1.isDomainConflict = false := by
  unfold updateProxyRule
  split
  · rfl
  · rename_i hn
    cases hex : storeGet st n with
    | none => rfl
    | some ex =>
      show (match mergeUpdates ex upd with
            | none => (UpdateResult.panicked, st)
            | some merged => finishUpdate st n merged).1.isDomainConflict = false
      cases hm : mergeUpdates ex upd with
      | none => rfl
      | some merged =>
        show (finishUpdate st n merged).1.isDomainConflict = false
        unfold finishUpdate
        cases hv : validateProxyRuleUpdate merged with
        | cons e es => rfl
        | nil =>
          have hchk : checkDuplicateDomain st merged n = none := by
            unfold checkDuplicateDomain
            cases hcd : candDomain merged with
            | none => rfl
            | some d =>
              apply scanConflict_none_of_no_match
              intro r hr
              by_cases hname : getName r = n
              · exact Or.inl ⟨hn, hname⟩
              · right
                intro hdom
                exact hname (h ex hex merged hm d hcd r hr hdom)
          rw [hchk]
          cases storeUpdate st merged <;> rfl

/-- The store and request of the C7 witness: the rule keeps its own domain
across the update. -/
def stC7 : Store := [("test-rule", mkRule "test-rule" "example.com" "10.0.0.50")]

/-- The C7 witness update body: same domain, new destination. -/
def updC7 : JObj :=
  [("spec", .obj [("domain", .str "example.com"), ("destination", .str "10.0.0.51")])]

/-- Witness for C7: updating the only holder of a domain with that same
domain is not a domain conflict. -/
theorem update_no_self_domain_conflict_witness :
    (updateProxyRule stC7 "test-rule" updC7).1.isDomainConflict = false :=
  update_no_self_domain_conflict stC7 "test-rule" updC7 (by
    intro ex hex merged hm d hcd r hr hdom
    have hr' : r = mkRule "test-rule" "example.com" "10.0.0.50" := by
      simpa [stC7, storeList] using hr
    subst hr'
    rfl)

end Mortar
